import Mathlib

/-!
# A verification development for the PToyDB embeddable database

This file gives a shallow embedding, in Lean 4, of the core subsystems of
the PToyDB single-node relational key-value database (`distdb` package):
the storage engine with its write-ahead log and recovery procedure, the
hash and ordered secondary indexes with their manager, the value-coercion
and WHERE-clause fragments of the SQL front end, the query executor, the
node coordinator, and the simplified Raft consensus log.

Python dictionaries are embedded as association lists that update keys in
place (preserving insertion order, as Python dicts do); Python scalars are
embedded as a tagged `Value` type over mathematical integers, rationals
(for finite floats) and strings.  Non-finite float literals, unicode
digits, and wall-clock timestamps are outside the modelled domain and are
noted where they are elided.  Each theorem below states one claim about
the embedded code and is proved against these definitions.
-/

namespace DistDB

/-- ASCII whitespace recognised by Python `str.strip()` and by the `\s`
regex class (the unicode members of the class are not modelled). -/
def isPyWs (c : Char) : Bool :=
  c = ' ' || c = '\t' || c = '\n' || c = '\r' || c = Char.ofNat 11 || c = Char.ofNat 12

/-- The apostrophe character, written via its code point. -/
def aposChar : Char := Char.ofNat 39

/-- Quote characters stripped by `.strip("'\x22")` in the SQL front end. -/
def isQuoteCh (c : Char) : Bool :=
  c = aposChar || c = '"'

/-- `\w` of the `re` module, restricted to ASCII: letters, digits, underscore. -/
def isWordCh (c : Char) : Bool :=
  c.isAlphanum || c = '_'

/-- Drop the characters satisfying `p` from both ends of a character list;
the common core of Python `str.strip()` and `str.strip(chars)`. -/
def stripEnds (p : Char → Bool) (l : List Char) : List Char :=
  ((l.dropWhile p).reverse.dropWhile p).reverse

/-- Python `str.strip()` (ASCII whitespace). -/
def pyStrip (s : String) : String :=
  String.mk (stripEnds isPyWs s.toList)

/-- Python `str.strip("'\x22")`: remove every leading and trailing quote. -/
def stripQuotes (s : String) : String :=
  String.mk (stripEnds isQuoteCh s.toList)

/-- A Python float as produced by `float(...)`: a finite value (embedded as
the exact rational of the literal; IEEE rounding is not modelled), an
infinity, or a NaN. -/
inductive PyFloat where
  | finite (q : ℚ)
  | pinf
  | ninf
  | nan
deriving DecidableEq

/-- Python `<=` between two floats; every comparison on NaN is `False`. -/
def pyFloatLe : PyFloat → PyFloat → Bool
  | .nan, _ => false
  | _, .nan => false
  | .ninf, _ => true
  | _, .pinf => true
  | .pinf, _ => false
  | .finite a, .finite b => decide (a ≤ b)
  | .finite _, .ninf => false

/-- Python `==` between two floats. -/
def pyFloatEq : PyFloat → PyFloat → Bool
  | .finite a, .finite b => decide (a = b)
  | .pinf, .pinf => true
  | .ninf, .ninf => true
  | _, _ => false

/-- A scalar cell value: the dynamic type of row fields and parsed SQL
values (`int`, `float` or `str` in the source). -/
inductive Value where
  | int (n : ℤ)
  | float (f : PyFloat)
  | str (s : String)
deriving DecidableEq

/-- Python `==` on scalars: exact numeric comparison across int/float,
string equality on strings, `False` across kinds.  It never raises. -/
def pyEq : Value → Value → Bool
  | .int a, .int b => decide (a = b)
  | .int a, .float f => pyFloatEq (.finite (a : ℚ)) f
  | .float f, .int b => pyFloatEq f (.finite (b : ℚ))
  | .float a, .float b => pyFloatEq a b
  | .str a, .str b => decide (a = b)
  | _, _ => false

/-- Python `<=` on scalars.  `none` models the `TypeError` raised when a
string is compared with a number. -/
def pyLe : Value → Value → Option Bool
  | .int a, .int b => some (decide (a ≤ b))
  | .int a, .float f => some (pyFloatLe (.finite (a : ℚ)) f)
  | .float f, .int b => some (pyFloatLe f (.finite (b : ℚ)))
  | .float a, .float b => some (pyFloatLe a b)
  | .str a, .str b => some (decide (a ≤ b))
  | _, _ => none

/-- Decidable equality for `Except`, used to evaluate operation results
on concrete inputs. -/
instance {ε α : Type} [DecidableEq ε] [DecidableEq α] : DecidableEq (Except ε α) :=
  fun a b =>
    match a, b with
    | .ok x, .ok y =>
      if h : x = y then .isTrue (by rw [h]) else .isFalse (by simp [h])
    | .error x, .error y =>
      if h : x = y then .isTrue (by rw [h]) else .isFalse (by simp [h])
    | .ok _, .error _ => .isFalse (by simp)
    | .error _, .ok _ => .isFalse (by simp)

/-- First binding of key `k` in an association list; Python `dict.get`. -/
def alookup {κ α : Type} [DecidableEq κ] : List (κ × α) → κ → Option α
  | [], _ => none
  | (k1, v) :: rest, k => if k1 = k then some v else alookup rest k

/-- `m[k] = v` on a Python dict: update the existing binding in place
(keeping its position) or append a new one. -/
def ainsert {κ α : Type} [DecidableEq κ] : List (κ × α) → κ → α → List (κ × α)
  | [], k, v => [(k, v)]
  | (k1, v1) :: rest, k, v =>
    if k1 = k then (k, v) :: rest else (k1, v1) :: ainsert rest k v

/-- `del m[k]` / `m.pop(k, None)` on a Python dict. -/
def aerase {κ α : Type} [DecidableEq κ] (m : List (κ × α)) (k : κ) : List (κ × α) :=
  m.filter (fun p => p.1 ≠ k)

/-- `k in m` on a Python dict. -/
def amem {κ α : Type} [DecidableEq κ] (m : List (κ × α)) (k : κ) : Bool :=
  (alookup m k).isSome

/-- A run of decimal digits with single underscores allowed between two
digits (Python numeric-literal grammar), accumulating the value and the
number of digits.  Returns `none` on a misplaced underscore or on any
other character: the whole remaining input must be consumed. -/
def digitsCore : ℕ → ℕ → List Char → Option (ℕ × ℕ)
  | acc, cnt, [] => some (acc, cnt)
  | acc, cnt, c :: rest =>
    if c.isDigit then digitsCore (acc * 10 + (c.toNat - 48)) (cnt + 1) rest
    else if c = '_' then
      match rest with
      | d :: rest2 =>
        if d.isDigit then digitsCore (acc * 10 + (d.toNat - 48)) (cnt + 1) rest2 else none
      | [] => none
    else none

/-- Like `digitsCore` but stops (without failing) at the first character
that cannot extend the run; returns the value, the digit count, and the
unconsumed rest.  Used for the parts of a float literal. -/
def digitsPart : ℕ → ℕ → List Char → (ℕ × ℕ × List Char)
  | acc, cnt, [] => (acc, cnt, [])
  | acc, cnt, c :: rest =>
    if c.isDigit then digitsPart (acc * 10 + (c.toNat - 48)) (cnt + 1) rest
    else if c = '_' then
      match rest with
      | d :: rest2 =>
        if d.isDigit then digitsPart (acc * 10 + (d.toNat - 48)) (cnt + 1) rest2
        else (acc, cnt, c :: rest)
      | [] => (acc, cnt, c :: rest)
    else (acc, cnt, c :: rest)

/-- Python `int(s)` on a string: optional surrounding whitespace, optional
sign, a digit run.  (Non-ASCII digit characters are not modelled.) -/
def pyIntParse (s : String) : Option ℤ :=
  let l := stripEnds isPyWs s.toList
  let core : List Char → Option ℤ := fun cs =>
    match cs with
    | c :: rest =>
      if c.isDigit then
        match digitsCore (c.toNat - 48) 1 rest with
        | some (v, _) => some (v : ℤ)
        | none => none
      else none
    | [] => none
  match l with
  | '+' :: rest => core rest
  | '-' :: rest => (core rest).map Neg.neg
  | _ => core l

/-- Lower-case a single ASCII letter. -/
def lowc (c : Char) : Char := c.toLower

/-- Python `float(s)` on a string: optional whitespace and sign, then
either `inf`/`infinity`/`nan` (case-insensitive) or a decimal literal
with optional fraction and exponent.  Finite results carry the exact
rational value of the literal (IEEE rounding is not modelled). -/
def pyFloatParse (s : String) : Option PyFloat :=
  let l := stripEnds isPyWs s.toList
  let (neg, body) :=
    match l with
    | '+' :: rest => (false, rest)
    | '-' :: rest => (true, rest)
    | _ => (false, l)
  let lowered := body.map lowc
  if lowered = ['i', 'n', 'f'] || lowered = ['i', 'n', 'f', 'i', 'n', 'i', 't', 'y'] then
    some (if neg then .ninf else .pinf)
  else if lowered = ['n', 'a', 'n'] then
    some .nan
  else
    let (ip, ic, r1) := digitsPart 0 0 body
    let (fp, fc, r2) :=
      match r1 with
      | '.' :: rest => digitsPart 0 0 rest
      | _ => (0, 0, r1)
    if ic + fc = 0 then none
    else
      let mant : ℚ := (ip : ℚ) * (10 : ℚ) ^ fc + (fp : ℚ)
      let base : ℚ := mant / (10 : ℚ) ^ fc
      let withExp : Option ℚ :=
        match r2 with
        | c :: rest =>
          if lowc c = 'e' then
            let (eneg, erest) :=
              match rest with
              | '+' :: r => (false, r)
              | '-' :: r => (true, r)
              | _ => (false, rest)
            match erest with
            | d :: tl =>
              if d.isDigit then
                match digitsCore (d.toNat - 48) 1 tl with
                | some (ev, _) =>
                  some (if eneg then base / (10 : ℚ) ^ ev else base * (10 : ℚ) ^ ev)
                | none => none
              else none
            | [] => none
          else none
        | [] => some base
      match withExp with
      | some q => some (.finite (if neg then -q else q))
      | none => none

/-- `SQLParser._convert_value`: try `int`, then `float`, else keep the
string unchanged. -/
def convertValue (s : String) : Value :=
  match pyIntParse s with
  | some n => .int n
  | none =>
    match pyFloatParse s with
    | some f => .float f
    | none => .str s

/-- The value pipeline applied to each token of an INSERT VALUES list, a
SET assignment, or a WHERE predicate: `token.strip().strip("'\x22")`
followed by `_convert_value`. -/
def valueToken (t : String) : Value :=
  convertValue (stripQuotes (pyStrip t))

/-- `re.search(r"(\w+)\s*=\s*(.+)", part)` attempted at the start of the
given character list: a maximal nonempty word run, optional whitespace,
`=`, then the greedy remainder (which must be nonempty; if it is all
whitespace the greedy `\s*` backs off to leave its last character). -/
def eqMatchAt (l : List Char) : Option (String × String) :=
  let w := l.takeWhile isWordCh
  let r1 := l.dropWhile isWordCh
  if w.isEmpty then none
  else
    let r2 := r1.dropWhile isPyWs
    match r2 with
    | '=' :: r3 =>
      let tail := r3.dropWhile isPyWs
      if tail.isEmpty then
        match r3.getLast? with
        | some c => some (String.mk w, String.mk [c])
        | none => none
      else some (String.mk w, String.mk tail)
    | _ => none

/-- Leftmost-match search for `(\w+)\s*=\s*(.+)` over a character list. -/
def eqSearch : List Char → Option (String × String)
  | [] => none
  | c :: rest =>
    match eqMatchAt (c :: rest) with
    | some r => some r
    | none => eqSearch rest

/-- `re.search(r"(\w+)\s*=\s*(.+)", s)` over a whole (newline-free)
string, as used on each AND-separated predicate of a WHERE clause. -/
def findEqMatch (s : String) : Option (String × String) :=
  eqSearch s.toList

/-- One iteration of `SQLParser._parse_where`: if the stripped predicate
matches `column = value`, bind the column (overriding an earlier
binding); otherwise leave the conditions untouched. -/
def parseWherePart (conds : List (String × Value)) (part : String) : List (String × Value) :=
  match findEqMatch (pyStrip part) with
  | some (col, val) => ainsert conds (pyStrip col) (valueToken val)
  | none => conds

/-- `SQLParser._parse_where` after the split on `\s+AND\s+`: fold every
predicate into the conditions mapping. -/
def parseWhereParts (parts : List String) : List (String × Value) :=
  parts.foldl parseWherePart []

/-- Try to read the separator `\s+AND\s+` (case-insensitive) at the head
of the list; on success return the remainder after the separator. -/
def andSepAt (l : List Char) : Option (List Char) :=
  let sp1 := l.takeWhile isPyWs
  let r1 := l.dropWhile isPyWs
  if sp1.isEmpty then none
  else
    match r1 with
    | a :: n :: d :: r2 =>
      if lowc a = 'a' && lowc n = 'n' && lowc d = 'd' then
        let sp2 := r2.takeWhile isPyWs
        let r3 := r2.dropWhile isPyWs
        if sp2.isEmpty then none else some r3
      else none
    | _ => none

/-- `re.split(r"\s+AND\s+", s)` (case-insensitive), scanning left to
right for non-overlapping separators.  The fuel argument only bounds the
recursion; every separator consumes at least five characters, so fuel
equal to the input length never runs out. -/
def andSplitGo : ℕ → List Char → List Char → List (List Char)
  | _, acc, [] => [acc.reverse]
  | 0, acc, l => [acc.reverse ++ l]
  | fuel + 1, acc, l =>
    match andSepAt l with
    | some rest => acc.reverse :: andSplitGo fuel [] rest
    | none =>
      match l with
      | [] => [acc.reverse]
      | c :: rest => andSplitGo fuel (c :: acc) rest

/-- Split a WHERE string on `\s+AND\s+`. -/
def splitOnAnd (s : String) : List String :=
  (andSplitGo s.toList.length [] s.toList).map String.mk

/-- Remove the first occurrence of the (case-sensitive) substring
`WHERE`, as `str.replace("WHERE", "", 1)` does. -/
def removeFirstWhere : List Char → List Char
  | [] => []
  | c :: rest =>
    if (c :: rest).take 5 = ['W', 'H', 'E', 'R', 'E'] then (c :: rest).drop 5
    else c :: removeFirstWhere rest

/-- `SQLParser._parse_where` on the full WHERE-clause text: drop the
leading keyword, strip, split on AND, and fold the predicates. -/
def parseWhereStr (s : String) : List (String × Value) :=
  parseWhereParts (splitOnAnd (pyStrip (String.mk (removeFirstWhere s.toList))))

/-- A table schema: column name to textual type tag. -/
abbrev Schema := List (String × String)

/-- A row: column name to scalar value. -/
abbrev Row := List (String × Value)

/-- A WAL record as appended by the storage engine (the wall-clock
timestamp field is not modelled; recovery never reads it). -/
inductive WalRec where
  | putR (table key : String) (value : Row)
  | delR (table key : String)
  | createR (table : String) (schema : Schema)
  | dropR (table : String)
deriving DecidableEq

/-- The in-process and on-disk state of one `StorageEngine`: the schemas
and tables dicts, the WAL contents (a list of records; framing and fsync
are collapsed into list append), the snapshot file contents if one has
been written, and the snapshot counter and threshold.  The boolean
`walOk` argument of each mutating operation models whether the fsync in
`WriteAheadLog.append` succeeds; when it is `false` the append raises a
durable-write error. -/
structure SnapData where
  tables : List (String × List (String × Row))
  schemas : List (String × Schema)
deriving DecidableEq

structure EngineState where
  schemas : List (String × Schema)
  tables : List (String × List (String × Row))
  wal : List WalRec
  snapFile : Option SnapData
  opsSince : ℕ
  snapInterval : ℕ
deriving DecidableEq

/-- A freshly initialised engine over empty directories. -/
def emptyEngine (interval : ℕ) : EngineState :=
  ⟨[], [], [], none, 0, interval⟩

/-- `StorageEngine.snapshot`: dump tables and schemas to the snapshot
file, truncate the WAL, reset the counter. -/
def snapshotE (st : EngineState) : EngineState :=
  { st with snapFile := some ⟨st.tables, st.schemas⟩, wal := [], opsSince := 0 }

/-- `StorageEngine._check_snapshot`: snapshot when the counter reaches
the threshold. -/
def checkSnapshot (st : EngineState) : EngineState :=
  if st.snapInterval ≤ st.opsSince then snapshotE st else st

/-- `StorageEngine.create_table`.  Note the source order: the schemas and
tables dicts are mutated first, then the WAL append runs; a failing
append leaves the mutation behind.  The counter is not incremented. -/
def createTable (walOk : Bool) (st : EngineState) (t : String) (sch : Schema) :
    Except String Unit × EngineState :=
  if amem st.schemas t then
    (.error ("Table " ++ t ++ " already exists"), st)
  else
    let st1 := { st with schemas := ainsert st.schemas t sch,
                         tables := ainsert st.tables t [] }
    if walOk then
      (.ok (), checkSnapshot { st1 with wal := st1.wal ++ [.createR t sch] })
    else
      (.error "durable-write-failed", st1)

/-- `StorageEngine.drop_table`.  `del self.tables[t]` raises `KeyError`
when the tables dict has no entry even though the schema exists (this
can happen after recovery); the schema deletion has already run then. -/
def dropTable (walOk : Bool) (st : EngineState) (t : String) :
    Except String Unit × EngineState :=
  if ¬ amem st.schemas t then
    (.error ("Table " ++ t ++ " does not exist"), st)
  else
    let st1 := { st with schemas := aerase st.schemas t }
    if ¬ amem st1.tables t then
      (.error ("KeyError: " ++ t), st1)
    else
      let st2 := { st1 with tables := aerase st1.tables t }
      if walOk then
        (.ok (), checkSnapshot { st2 with wal := st2.wal ++ [.dropR t] })
      else
        (.error "durable-write-failed", st2)

/-- `StorageEngine.put`: schema checks, then mutate the row (the tables
dict is a `defaultdict`, so a missing table entry is created), then WAL
append, counter, snapshot check. -/
def put (walOk : Bool) (st : EngineState) (t k : String) (row : Row) :
    Except String Unit × EngineState :=
  if ¬ amem st.schemas t then
    (.error ("Table " ++ t ++ " does not exist"), st)
  else
    let sch := (alookup st.schemas t).getD []
    match row.find? (fun p => ¬ amem sch p.1) with
    | some p => (.error ("Column " ++ p.1 ++ " not in schema for table " ++ t), st)
    | none =>
      let rows := (alookup st.tables t).getD []
      let st1 := { st with tables := ainsert st.tables t (ainsert rows k row) }
      if walOk then
        (.ok (), checkSnapshot { st1 with wal := st1.wal ++ [.putR t k row],
                                          opsSince := st1.opsSince + 1 })
      else
        (.error "durable-write-failed", st1)

/-- `StorageEngine.get`. -/
def getRow (st : EngineState) (t k : String) : Option Row :=
  alookup ((alookup st.tables t).getD []) k

/-- `StorageEngine.delete`: remove the key if present (then WAL append,
counter, snapshot check) and report whether anything was removed. -/
def deleteKey (walOk : Bool) (st : EngineState) (t k : String) :
    Except String Bool × EngineState :=
  match alookup st.tables t with
  | none => (.ok false, st)
  | some rows =>
    if amem rows k then
      let st1 := { st with tables := ainsert st.tables t (aerase rows k) }
      if walOk then
        (.ok true, checkSnapshot { st1 with wal := st1.wal ++ [.delR t k],
                                            opsSince := st1.opsSince + 1 })
      else
        (.error "durable-write-failed", st1)
    else
      (.ok false, st)

/-- `StorageEngine.scan`: the list of (key, row) pairs, empty when the
table has no entry. -/
def scanT (st : EngineState) (t : String) : List (String × Row) :=
  (alookup st.tables t).getD []

/-- One storage operation of a client-visible history Σ. -/
inductive StorageOp where
  | opCreate (t : String) (sch : Schema)
  | opDrop (t : String)
  | opPut (t k : String) (row : Row)
  | opDelete (t k : String)
  | opSnap
deriving DecidableEq

/-- Apply one storage operation with a healthy WAL; a failed precondition
leaves the state unchanged (the exception propagates to the caller). -/
def applyStorageOp (st : EngineState) : StorageOp → EngineState
  | .opCreate t sch => (createTable true st t sch).2
  | .opDrop t => (dropTable true st t).2
  | .opPut t k row => (put true st t k row).2
  | .opDelete t k => (deleteKey true st t k).2
  | .opSnap => snapshotE st

/-- Run a history Σ from a freshly initialised engine state. -/
def runStorageOps (st : EngineState) (ops : List StorageOp) : EngineState :=
  ops.foldl applyStorageOp st

/-- Replay of a single WAL record in `StorageEngine._recover`.  PUT and
DELETE touch the tables `defaultdict` (creating an empty entry when the
table is absent); CREATE_TABLE sets only the schema; DROP_TABLE pops
both maps. -/
def replayRec (acc : SnapData) (r : WalRec) : SnapData :=
  match r with
  | .putR t k v => ⟨ainsert acc.tables t (ainsert ((alookup acc.tables t).getD []) k v), acc.schemas⟩
  | .delR t k => ⟨ainsert acc.tables t (aerase ((alookup acc.tables t).getD []) k), acc.schemas⟩
  | .createR t sch => ⟨acc.tables, ainsert acc.schemas t sch⟩
  | .dropR t => ⟨aerase acc.tables t, aerase acc.schemas t⟩

/-- `StorageEngine._recover` run against the directories left behind by
`st`: load the snapshot if present, then replay every WAL record in
order.  The result is the recovered (tables, schemas) pair. -/
def recover (st : EngineState) : SnapData :=
  st.wal.foldl replayRec (match st.snapFile with
    | none => ⟨[], []⟩
    | some sd => ⟨sd.tables.map (fun p => (p.1, p.2)), sd.schemas⟩)

/-- A `HashIndex`: the indexed columns and the mapping from derived key
tuple to the set of row keys (sets are lists without duplicates, kept in
insertion order; Python set iteration order is unspecified, which only
affects the order of candidate rows, never their multiset). -/
structure HashIdx where
  columns : List String
  data : List (List (Option Value) × List String)
deriving DecidableEq

/-- `HashIndex._get_index_key`: the tuple of `row.get(col)` over the
indexed columns (a missing column contributes `None`). -/
def hashKeyOf (cols : List String) (row : Row) : List (Option Value) :=
  cols.map (alookup row)

/-- `HashIndex.insert`: add the row key to the bucket of its derived
tuple (`_get_index_key` never returns `None` for a dict row, so the
guard in the source is always taken). -/
def HashIdx.insertH (idx : HashIdx) (key : String) (row : Row) : HashIdx :=
  let k := hashKeyOf idx.columns row
  let bucket := (alookup idx.data k).getD []
  ⟨idx.columns, ainsert idx.data k (if key ∈ bucket then bucket else bucket ++ [key])⟩

/-- `HashIndex.delete`: discard the row key from the bucket of the
derived tuple and remove the bucket when it becomes empty. -/
def HashIdx.deleteH (idx : HashIdx) (key : String) (row : Row) : HashIdx :=
  let k := hashKeyOf idx.columns row
  match alookup idx.data k with
  | none => idx
  | some bucket =>
    let b2 := bucket.filter (fun s => s ≠ key)
    if b2.isEmpty then ⟨idx.columns, aerase idx.data k⟩
    else ⟨idx.columns, ainsert idx.data k b2⟩

/-- `HashIndex.lookup`: derive the tuple from `conditions.get(col)` over
the index columns and return that bucket (or the empty set). -/
def HashIdx.lookupH (idx : HashIdx) (conds : List (String × Value)) : List String :=
  (alookup idx.data (idx.columns.map (alookup conds))).getD []

/-- A `BTreeIndex`: a single indexed column and the mapping from column
value to the set of row keys.  (The sorted-key order of the source's
`SortedDict` only affects `range_scan`, which no modelled operation
calls; the executor uses equality `lookup` only.) -/
structure BIdx where
  column : String
  data : List (Value × List String)
deriving DecidableEq

/-- `BTreeIndex.insert`: rows whose column value is missing are not
indexed. -/
def BIdx.insertB (idx : BIdx) (key : String) (row : Row) : BIdx :=
  match alookup row idx.column with
  | none => idx
  | some v =>
    let bucket := (alookup idx.data v).getD []
    ⟨idx.column, ainsert idx.data v (if key ∈ bucket then bucket else bucket ++ [key])⟩

/-- `BTreeIndex.delete`. -/
def BIdx.deleteB (idx : BIdx) (key : String) (row : Row) : BIdx :=
  match alookup row idx.column with
  | none => idx
  | some v =>
    match alookup idx.data v with
    | none => idx
    | some bucket =>
      let b2 := bucket.filter (fun s => s ≠ key)
      if b2.isEmpty then ⟨idx.column, aerase idx.data v⟩
      else ⟨idx.column, ainsert idx.data v b2⟩

/-- `BTreeIndex.lookup`: the bucket of the condition value on the
indexed column, or the empty set when that column is unconstrained. -/
def BIdx.lookupB (idx : BIdx) (conds : List (String × Value)) : List String :=
  match alookup conds idx.column with
  | none => []
  | some v => (alookup idx.data v).getD []

/-- One secondary index, hash or ordered. -/
inductive Idx where
  | hashI (h : HashIdx)
  | btreeI (b : BIdx)
deriving DecidableEq

/-- The columns an index is declared on. -/
def Idx.columnsOf : Idx → List String
  | .hashI h => h.columns
  | .btreeI b => [b.column]

/-- `Index.insert` dispatch. -/
def Idx.insertI : Idx → String → Row → Idx
  | .hashI h, key, row => .hashI (h.insertH key row)
  | .btreeI b, key, row => .btreeI (b.insertB key row)

/-- `Index.delete` dispatch. -/
def Idx.deleteI : Idx → String → Row → Idx
  | .hashI h, key, row => .hashI (h.deleteH key row)
  | .btreeI b, key, row => .btreeI (b.deleteB key row)

/-- `Index.lookup` dispatch. -/
def Idx.lookupI : Idx → List (String × Value) → List String
  | .hashI h, conds => h.lookupH conds
  | .btreeI b, conds => b.lookupB conds

/-- The `IndexManager` registry: table name to (index name to index), in
creation order. -/
abbrev IdxMgr := List (String × List (String × Idx))

/-- `IndexManager.create_index`.  Accessing `self.indexes[table]` on the
`defaultdict` materialises an (initially empty) slot for the table even
when a later check fails.  Returns the new index and the updated
registry, or raises on a duplicate name, a multi-column btree, or an
unknown kind. -/
def createIndexM (im : IdxMgr) (name table : String) (cols : List String)
    (kind : String) : Except String (Idx × IdxMgr) :=
  let slot := (alookup im table).getD []
  let im1 := ainsert im table slot
  if amem slot name then
    .error ("Index " ++ name ++ " already exists on table " ++ table)
  else if kind = "hash" then
    let idx := Idx.hashI ⟨cols, []⟩
    .ok (idx, ainsert im1 table (ainsert slot name idx))
  else if kind = "btree" then
    match cols with
    | [c] =>
      let idx := Idx.btreeI ⟨c, []⟩
      .ok (idx, ainsert im1 table (ainsert slot name idx))
    | _ => .error "BTreeIndex only supports single column"
  else
    .error ("Unknown index type: " ++ kind)

/-- `IndexManager.drop_index`: remove the named index; no-op if absent. -/
def dropIndexM (im : IdxMgr) (table name : String) : IdxMgr :=
  match alookup im table with
  | none => im
  | some slot => ainsert im table (aerase slot name)

/-- `IndexManager.insert_row`: insert into every index of the table. -/
def insertRowM (im : IdxMgr) (table key : String) (row : Row) : IdxMgr :=
  match alookup im table with
  | none => im
  | some slot => ainsert im table (slot.map (fun p => (p.1, p.2.insertI key row)))

/-- `IndexManager.delete_row`: delete from every index of the table. -/
def deleteRowM (im : IdxMgr) (table key : String) (row : Row) : IdxMgr :=
  match alookup im table with
  | none => im
  | some slot => ainsert im table (slot.map (fun p => (p.1, p.2.deleteI key row)))

/-- `IndexManager.find_best_index`: score each index of the table by how
many of its columns occur in the conditions, keep the first strict
maximum (iteration in creation order), and return it when its score is
positive. -/
def findBestIndex (im : IdxMgr) (table : String) (conds : List (String × Value)) :
    Option Idx :=
  let step := fun (acc : Option Idx × ℤ) (p : String × Idx) =>
    let score : ℤ := ((p.2.columnsOf).countP (fun c => amem conds c) : ℤ)
    if acc.2 < score then (some p.2, score) else acc
  let best := ((alookup im table).getD []).foldl step (none, -1)
  if 0 < best.2 then best.1 else none

/-- The combined state the query executor acts on. -/
structure DBState where
  storage : EngineState
  indexes : IdxMgr
deriving DecidableEq

/-- `QueryExecutor._matches_conditions`: every condition column must be
present in the row with a `==`-equal value. -/
def matchesConds (row : Row) (conds : List (String × Value)) : Bool :=
  conds.all (fun p =>
    match alookup row p.1 with
    | some w => pyEq w p.2
    | none => false)

/-- The statement kinds produced by the SQL front end. -/
inductive QType where
  | selectQ
  | insertQ
  | updateQ
  | deleteQ
  | createTableQ
  | dropTableQ
  | createIndexQ
  | dropIndexQ
deriving DecidableEq

/-- A `ParsedQuery` plan object.  Fields that a statement kind does not
use keep their defaults (the source initialises them to `None`/empty;
absent optional names are embedded as `""`). -/
structure Plan where
  queryType : QType
  table : String := ""
  columns : List String := []
  conditions : List (String × Value) := []
  values : List (String × Value) := []
  schema : Schema := []
  orderBy : List (String × String) := []
  limit : Option ℤ := none
  indexName : String := ""
  indexColumns : List String := []
  indexType : String := "btree"
deriving DecidableEq

/-- An executor result dictionary; absent keys are `none`. -/
structure ExecRes where
  status : String
  message : Option String := none
  rows : Option (List Row) := none
  rowCount : Option ℕ := none
  rowsAffected : Option ℕ := none
  insertedKey : Option String := none
deriving DecidableEq

/-- `{**row, "_key": key}`: tag a row with its storage key. -/
def tagKey (row : Row) (key : String) : Row :=
  ainsert row "_key" (.str key)

/-- `r.get(col, "")`: the sort key of one row for one ORDER BY column. -/
def getSortKey (col : String) (r : Row) : Value :=
  (alookup r col).getD (.str "")

/-- The boolean comparison one stable sort pass uses for ORDER BY key
`(col, dir)`: ascending `<=` on the sort keys, or its flip for `DESC`.
Python raises `TypeError` on an incomparable pair; the embedding
totalises the comparison with `false` and every ordering theorem assumes
the keys are comparable. -/
def rowLeB (key : String × String) (a b : Row) : Bool :=
  if key.2 = "DESC" then (pyLe (getSortKey key.1 b) (getSortKey key.1 a)).getD false
  else (pyLe (getSortKey key.1 a) (getSortKey key.1 b)).getD false

/-- Stable insertion: a new element goes before the first element it
compares `le` to, hence after every earlier equal element. -/
def insertLe {α : Type} (le : α → α → Bool) (x : α) : List α → List α
  | [] => [x]
  | y :: ys => if le x y then x :: y :: ys else y :: insertLe le x ys

/-- A stable sort, modelling Python `list.sort` with a key function. -/
def isortBy {α : Type} (le : α → α → Bool) : List α → List α
  | [] => []
  | x :: xs => insertLe le x (isortBy le xs)

/-- The ORDER BY loop: iterate the keys in reverse and run one stable
sort per key, so the head key ends up as the major sort key. -/
def multiSort (keys : List (String × String)) (l : List Row) : List Row :=
  match keys with
  | [] => l
  | k :: ks => isortBy (rowLeB k) (multiSort ks l)

/-- `rows[:n]` for an `int` n (a negative LIMIT slices from the end, as
Python slicing does). -/
def pySlice (n : ℤ) (l : List Row) : List Row :=
  if n < 0 then l.take (l.length - (-n).toNat) else l.take n.toNat

/-- The LIMIT step of SELECT. -/
def limitStep (limit : Option ℤ) (l : List Row) : List Row :=
  match limit with
  | none => l
  | some n => pySlice n l

/-- `{col: row.get(col) for col in columns if col in row}`. -/
def projectRow (cols : List String) (row : Row) : Row :=
  cols.foldl (fun acc c =>
    match alookup row c with
    | some v => ainsert acc c v
    | none => acc) []

/-- The projection step of SELECT: applied only when the column list is
nonempty and not the wildcard. -/
def projectStep (cols : List String) (rows : List Row) : List Row :=
  if cols.isEmpty || cols = ["*"] then rows else rows.map (projectRow cols)

/-- Candidate collection and WHERE filtering of SELECT: full scan when
there are no conditions; otherwise the best index's candidates (each
fetched and re-checked; a fetched row must also be non-empty, since the
source tests the row dict for truthiness) or a filtered full scan. -/
def selectBase (st : DBState) (q : Plan) : List Row :=
  if q.conditions.isEmpty then
    (scanT st.storage q.table).map (fun p => tagKey p.2 p.1)
  else
    match findBestIndex st.indexes q.table q.conditions with
    | some idx =>
      (idx.lookupI q.conditions).foldl (fun acc k =>
        match getRow st.storage q.table k with
        | some row =>
          if ¬ row.isEmpty && matchesConds row q.conditions then acc ++ [tagKey row k]
          else acc
        | none => acc) []
    | none =>
      (scanT st.storage q.table).foldl (fun acc p =>
        if matchesConds p.2 q.conditions then acc ++ [tagKey p.2 p.1] else acc) []

/-- `QueryExecutor._execute_select`: candidates, ORDER BY, LIMIT,
projection, result rows with count. -/
def execSelect (st : DBState) (q : Plan) : ExecRes :=
  let rows0 := selectBase st q
  let rows1 := if q.orderBy.isEmpty then rows0 else multiSort q.orderBy rows0
  let rows2 := limitStep q.limit rows1
  let rows3 := projectStep q.columns rows2
  { status := "success", rows := some rows3, rowCount := some rows3.length }

/-- `{**row, **values}`: merge the SET values over the old row. -/
def mergeRows (row : Row) (values : List (String × Value)) : Row :=
  values.foldl (fun acc p => ainsert acc p.1 p.2) row

/-- The body of the `_execute_update` loop over a scan snapshot: for each
matching row, first delete it from the indexes, then write the merged
row back to storage (an error here propagates, leaving the index
deletion behind), then re-insert into the indexes. -/
def updateLoop (q : Plan) : DBState → ℕ → List (String × Row) →
    Except String ℕ × DBState
  | st, n, [] => (.ok n, st)
  | st, n, (k, row) :: rest =>
    if matchesConds row q.conditions then
      let im1 := deleteRowM st.indexes q.table k row
      let updated := mergeRows row q.values
      match put true st.storage q.table k updated with
      | (.error m, eng) => (.error m, ⟨eng, im1⟩)
      | (.ok _, eng) =>
        updateLoop q ⟨eng, insertRowM im1 q.table k updated⟩ (n + 1) rest
    else
      updateLoop q st n rest

/-- `QueryExecutor._execute_update`. -/
def execUpdate (st : DBState) (q : Plan) : Except String ExecRes × DBState :=
  match updateLoop q st 0 (scanT st.storage q.table) with
  | (.error m, st2) => (.error m, st2)
  | (.ok n, st2) =>
    (.ok { status := "success", message := some (toString n ++ " rows updated"),
           rowsAffected := some n }, st2)

/-- The deletion pass of `_execute_delete` over the collected matches. -/
def deleteLoop (q : Plan) : DBState → ℕ → List (String × Row) → ℕ × DBState
  | st, n, [] => (n, st)
  | st, n, (k, row) :: rest =>
    let eng := (deleteKey true st.storage q.table k).2
    let im1 := deleteRowM st.indexes q.table k row
    deleteLoop q ⟨eng, im1⟩ (n + 1) rest

/-- `QueryExecutor._execute_delete`: collect matches from a scan, then
delete each from storage and indexes. -/
def execDelete (st : DBState) (q : Plan) : ExecRes × DBState :=
  let matches2 := (scanT st.storage q.table).filter (fun p => matchesConds p.2 q.conditions)
  let (n, st2) := deleteLoop q st 0 matches2
  ({ status := "success", message := some (toString n ++ " rows deleted"),
     rowsAffected := some n }, st2)

/-- `QueryExecutor._execute_insert` with the minted UUID supplied as
`freshKey` (uuid generation is external nondeterminism). -/
def execInsert (st : DBState) (q : Plan) (freshKey : String) :
    Except String ExecRes × DBState :=
  match put true st.storage q.table freshKey q.values with
  | (.error m, eng) => (.error m, ⟨eng, st.indexes⟩)
  | (.ok _, eng) =>
    (.ok { status := "success", message := some "Row inserted",
           rowsAffected := some 1, insertedKey := some freshKey },
     ⟨eng, insertRowM st.indexes q.table freshKey q.values⟩)

/-- `QueryExecutor._execute_create_table`. -/
def execCreateTable (st : DBState) (q : Plan) : Except String ExecRes × DBState :=
  match createTable true st.storage q.table q.schema with
  | (.error m, eng) => (.error m, ⟨eng, st.indexes⟩)
  | (.ok _, eng) =>
    (.ok { status := "success", message := some ("Table " ++ q.table ++ " created"),
           rowsAffected := some 0 }, ⟨eng, st.indexes⟩)

/-- `QueryExecutor._execute_drop_table`: drop the table, then drop every
index registered on it (the manager keeps an empty slot behind). -/
def execDropTable (st : DBState) (q : Plan) : Except String ExecRes × DBState :=
  match dropTable true st.storage q.table with
  | (.error m, eng) => (.error m, ⟨eng, st.indexes⟩)
  | (.ok _, eng) =>
    let im1 := match alookup st.indexes q.table with
      | none => st.indexes
      | some _ => ainsert st.indexes q.table []
    (.ok { status := "success", message := some ("Table " ++ q.table ++ " dropped"),
           rowsAffected := some 0 }, ⟨eng, im1⟩)

/-- `QueryExecutor._execute_create_index`: create through the manager,
then back-fill from a table scan (the mutated index object is the one
registered, so the registry ends up holding the back-filled index). -/
def execCreateIndex (st : DBState) (q : Plan) : Except String ExecRes × DBState :=
  match createIndexM st.indexes q.indexName q.table q.indexColumns q.indexType with
  | .error m =>
    let slotTouched := ainsert st.indexes q.table ((alookup st.indexes q.table).getD [])
    (.error m, ⟨st.storage, slotTouched⟩)
  | .ok (idx, im1) =>
    let filled := (scanT st.storage q.table).foldl (fun i p => i.insertI p.1 p.2) idx
    let im2 := ainsert im1 q.table (ainsert ((alookup im1 q.table).getD []) q.indexName filled)
    (.ok { status := "success",
           message := some ("Index " ++ q.indexName ++ " created on " ++ q.table),
           rowsAffected := some 0 }, ⟨st.storage, im2⟩)

/-- `QueryExecutor._execute_drop_index`. -/
def execDropIndex (st : DBState) (q : Plan) : ExecRes × DBState :=
  ({ status := "success", message := some ("Index " ++ q.indexName ++ " dropped"),
     rowsAffected := some 0 },
   ⟨st.storage, dropIndexM st.indexes q.table q.indexName⟩)

/-- `QueryExecutor.execute`: dispatch on the statement kind.  An
`Except.error` models an exception propagating out of the executor with
the (possibly mutated) state it left behind. -/
def execDispatch (st : DBState) (q : Plan) (freshKey : String) :
    Except String ExecRes × DBState :=
  match q.queryType with
  | .createTableQ => execCreateTable st q
  | .dropTableQ => execDropTable st q
  | .createIndexQ => execCreateIndex st q
  | .dropIndexQ =>
    let (r, st2) := execDropIndex st q
    (.ok r, st2)
  | .insertQ => execInsert st q freshKey
  | .selectQ => (.ok (execSelect st q), st)
  | .updateQ => execUpdate st q
  | .deleteQ =>
    let (r, st2) := execDelete st q
    (.ok r, st2)

/-- A result dictionary returned by `Node.execute_query`; absent keys
are `none`. -/
structure NodeRes where
  status : String
  message : Option String := none
  rows : Option (List Row) := none
  rowCount : Option ℕ := none
  rowsAffected : Option ℕ := none
  insertedKey : Option String := none
  nodeId : Option String := none
  isLeader : Option Bool := none
deriving DecidableEq

/-- The statement kinds the coordinator treats as writes to be gated on
leadership and replicated: the literal tuple
`('INSERT', 'UPDATE', 'DELETE', 'CREATE_TABLE', 'DROP_TABLE')`. -/
def writeGated : QType → Bool
  | .insertQ => true
  | .updateQ => true
  | .deleteQ => true
  | .createTableQ => true
  | .dropTableQ => true
  | _ => false

/-- Copy an executor result into a node result and attach `node_id` and
`is_leader`, as the tail of `Node.execute_query` does. -/
def attachNodeFields (r : ExecRes) (nodeId : String) (isLeader : Bool) : NodeRes :=
  { status := r.status, message := r.message, rows := r.rows,
    rowCount := r.rowCount, rowsAffected := r.rowsAffected,
    insertedKey := r.insertedKey, nodeId := some nodeId, isLeader := some isLeader }

/-- The `except`-clause result of `Node.execute_query`. -/
def caughtError (m : String) (nodeId : String) : NodeRes :=
  { status := "error", message := some m, nodeId := some nodeId }

/-- The not-leader rejection result (it carries no `node_id`). -/
def notLeaderRes : NodeRes :=
  { status := "error", message := some "Not the leader, cannot write",
    isLeader := some false }

/-- The replication-failure result (it carries no `node_id`). -/
def replFailedRes : NodeRes :=
  { status := "error", message := some "Failed to replicate write" }

/-- `Node.execute_query`: parse (the outcome of the unembedded `sqlparse`
front end is supplied as `parseRes`), gate writes on leadership,
replicate, execute, and catch every raised error into an error result.
`isLeader` is the reply of `ReplicationManager.is_leader` and `replOk`
the reply of `replicate_write`; `freshKey` is the UUID an INSERT would
mint.  The function is total: no exception reaches the caller. -/
def executeQuery (st : DBState) (parseRes : Except String Plan)
    (isLeader replOk : Bool) (freshKey nodeId : String) : NodeRes × DBState :=
  match parseRes with
  | .error m => (caughtError m nodeId, st)
  | .ok q =>
    if writeGated q.queryType ∧ ¬ isLeader then (notLeaderRes, st)
    else if writeGated q.queryType ∧ ¬ replOk then (replFailedRes, st)
    else
      match execDispatch st q freshKey with
      | (.error m, st2) => (caughtError m nodeId, st2)
      | (.ok r, st2) => (attachNodeFields r nodeId isLeader, st2)

/-- A Raft role. -/
inductive NodeRole where
  | follower
  | candidate
  | leader
deriving DecidableEq

/-- A Raft log entry; the `index` field is set to the log length at
append time (commands are opaque strings here). -/
structure RaftLogEntry where
  term : ℕ
  index : ℕ
  command : String
deriving DecidableEq

/-- The state of one `RaftNode`.  `applied` is the observation trace of
the apply callback: one pair `(entry.index, commit_index at the call)`
per invocation, in invocation order. -/
structure RaftState where
  nodeId : String
  allNodes : List String
  currentTerm : ℕ
  votedFor : Option String
  log : List RaftLogEntry
  commitIndex : ℕ
  lastApplied : ℕ
  role : NodeRole
  nextIndex : List (String × ℕ)
  matchIndex : List (String × ℕ)
  applied : List (ℕ × ℕ)
deriving DecidableEq

/-- A freshly constructed `RaftNode` (timers are not modelled; their
expiry is delivered as an explicit action). -/
def initRaft (nid : String) (nodes : List String) : RaftState :=
  ⟨nid, nodes, 0, none, [], 0, 0, .follower, [], [], []⟩

/-- The while-loop of `RaftNode._apply_committed_entries`, with explicit
fuel (the loop runs exactly `commit_index - last_applied` iterations). -/
def applyIter : ℕ → RaftState → RaftState
  | 0, st => st
  | n + 1, st =>
    if st.lastApplied < st.commitIndex then
      let la := st.lastApplied + 1
      let st1 := { st with lastApplied := la }
      if la ≤ st.log.length then
        let entry := st.log.getD (la - 1) ⟨0, 0, ""⟩
        applyIter n { st1 with applied := st1.applied ++ [(entry.index, st1.commitIndex)] }
      else applyIter n st1
    else st

/-- `RaftNode._apply_committed_entries`. -/
def applyCommitted (st : RaftState) : RaftState :=
  applyIter (st.commitIndex - st.lastApplied) st

/-- `RaftNode._try_commit`: a leader commits its whole log and applies. -/
def tryCommit (st : RaftState) : RaftState :=
  if st.role = .leader ∧ st.commitIndex < st.log.length then
    applyCommitted { st with commitIndex := st.log.length }
  else st

/-- `RaftNode.append_entry`: refused on a non-leader; otherwise append
an entry at index `len(log)` and try to commit. -/
def appendEntryR (st : RaftState) (cmd : String) : Bool × RaftState :=
  if st.role ≠ .leader then (false, st)
  else
    (true, tryCommit { st with log := st.log ++ [⟨st.currentTerm, st.log.length, cmd⟩] })

/-- `RaftNode._become_leader`. -/
def becomeLeader (st : RaftState) : RaftState :=
  let st1 := { st with role := .leader }
  st.allNodes.foldl (fun acc node =>
    if node ≠ st.nodeId then
      { acc with nextIndex := ainsert acc.nextIndex node st.log.length,
                 matchIndex := ainsert acc.matchIndex node 0 }
    else acc) st1

/-- `RaftNode._on_election_timeout` / `_start_election`: a non-leader
becomes candidate, bumps its term, votes for itself, and (only when it
is the sole node) becomes leader. -/
def electionTimeoutR (st : RaftState) : RaftState :=
  if st.role ≠ .leader then
    let st1 := { st with role := .candidate, currentTerm := st.currentTerm + 1,
                         votedFor := some st.nodeId }
    if st.allNodes.length = 1 then becomeLeader st1 else st1
  else st

/-- `RaftNode.append_entries` (the heartbeat RPC): step the term down to
follower on a newer leader term, reject stale terms, and advance the
commit index (the source ignores the carried entries). -/
def rpcAppendEntries (st : RaftState) (leaderTerm leaderCommit : ℕ) :
    Bool × RaftState :=
  let st1 := if st.currentTerm < leaderTerm then
      { st with currentTerm := leaderTerm, votedFor := none, role := .follower }
    else st
  if leaderTerm < st1.currentTerm then (false, st1)
  else if st1.commitIndex < leaderCommit then
    (true, applyCommitted { st1 with commitIndex := min leaderCommit st1.log.length })
  else (true, st1)

/-- `RaftNode.request_vote`. -/
def rpcRequestVote (st : RaftState) (cTerm : ℕ) (cId : String)
    (lastLogIndex : ℤ) (lastLogTerm : ℕ) : Bool × RaftState :=
  let st1 := if st.currentTerm < cTerm then
      { st with currentTerm := cTerm, votedFor := none, role := .follower }
    else st
  if cTerm = st1.currentTerm then
    if st1.votedFor = none ∨ st1.votedFor = some cId then
      let ourLastIndex : ℤ := (st1.log.length : ℤ) - 1
      let ourLastTerm : ℕ := (st1.log.getLast?.map RaftLogEntry.term).getD 0
      if ourLastTerm < lastLogTerm ∨
          (lastLogTerm = ourLastTerm ∧ ourLastIndex ≤ lastLogIndex) then
        (true, { st1 with votedFor := some cId })
      else (false, st1)
    else (false, st1)
  else (false, st1)

/-- The externally triggered events of one `RaftNode`. -/
inductive RaftAct where
  | clientAppend (cmd : String)
  | rpcAppend (leaderTerm leaderCommit : ℕ)
  | rpcVote (cTerm : ℕ) (cId : String) (lastLogIndex : ℤ) (lastLogTerm : ℕ)
  | timeout
deriving DecidableEq

/-- Apply one event (the boolean replies are dropped). -/
def raftStep (st : RaftState) : RaftAct → RaftState
  | .clientAppend cmd => (appendEntryR st cmd).2
  | .rpcAppend lt lc => (rpcAppendEntries st lt lc).2
  | .rpcVote ct cid lli llt => (rpcRequestVote st ct cid lli llt).2
  | .timeout => electionTimeoutR st

/-- Run a node from construction through a sequence of events. -/
def raftRun (nid : String) (nodes : List String) (acts : List RaftAct) : RaftState :=
  acts.foldl raftStep (initRaft nid nodes)

/-- The refinement relation of one stable-sort pass: `a` is strictly
below `b` for the pass comparison, or tied and already related by the
relation `q` established by the earlier (minor) passes. -/
def rr {α : Type} (le : α → α → Bool) (q : α → α → Prop) (a b : α) : Prop :=
  le a b = true ∧ (le b a = true → q a b)

/-- The requested major-to-minor SELECT ordering for an ORDER BY key
list: compare on the head key, break ties with the remaining keys. -/
def lexLe : List (String × String) → Row → Row → Prop
  | [] => fun _ _ => True
  | k :: ks => rr (rowLeB k) (lexLe ks)

/-- A token with no leading or trailing whitespace or quote character
(the normal form of SQL value tokens after splitting). -/
def cleanToken (s : String) : Bool :=
  (match s.toList.head? with
   | none => true
   | some c => ¬ (isPyWs c || isQuoteCh c)) &&
  (match s.toList.getLast? with
   | none => true
   | some c => ¬ (isPyWs c || isQuoteCh c))

/-- Wrap a string in a quoting character on both sides. -/
def wrapIn (c : Char) (s : String) : String :=
  String.mk (c :: (s.toList ++ [c]))

/-- The token `'123'`, single quotes included. -/
def q123 : String := String.mk [aposChar, '1', '2', '3', aposChar]

/-- Fixture: a two-column schema. -/
def schemaAB : Schema := [("a", "INTEGER"), ("b", "INTEGER")]

/-- Fixture: a row with `a = 1`, `b = 2`. -/
def rowAB : Row := [("a", .int 1), ("b", .int 2)]

/-- Fixture: a hash index over columns `(a, b)` holding `rowAB` under
its derived tuple. -/
def idxAB : Idx := .hashI ⟨["a", "b"], [([some (.int 1), some (.int 2)], ["k1"])]⟩

/-- Fixture: a database with one `users` table containing `rowAB` and
the two-column hash index registered and back-filled. -/
def stC1 : DBState :=
  ⟨⟨[("users", schemaAB)], [("users", [("k1", rowAB)])], [], none, 0, 1000⟩,
   [("users", [("iab", idxAB)])]⟩

/-- Fixture: `SELECT * FROM users WHERE a = 1`. -/
def planC1 : Plan :=
  { queryType := .selectQ, table := "users", columns := ["*"],
    conditions := [("a", .int 1)] }

/-- Fixture: an engine with one empty table `t`. -/
def stC2 : EngineState :=
  ⟨[("t", [("a", "INTEGER")])], [("t", [])], [], none, 0, 1000⟩

/-- Fixture: the history consisting of a single CREATE TABLE. -/
def opsC3 : List StorageOp := [.opCreate "t" [("id", "INTEGER")]]

/-- Fixture: the engine state after running `opsC3` from empty. -/
def stC3 : EngineState := runStorageOps (emptyEngine 1000) opsC3

/-- Fixture: a one-column schema. -/
def schemaA : Schema := [("a", "INTEGER")]

/-- Fixture: a row with `a = 1`. -/
def rowA : Row := [("a", .int 1)]

/-- Fixture: a hash index over column `a` holding `rowA`. -/
def idxA : Idx := .hashI ⟨["a"], [([some (.int 1)], ["k1"])]⟩

/-- Fixture: a database with the single-column index consistent with the
stored row. -/
def stC4 : DBState :=
  ⟨⟨[("users", schemaA)], [("users", [("k1", rowA)])], [], none, 0, 1000⟩,
   [("users", [("ia", idxA)])]⟩

/-- Fixture: `UPDATE users SET b = 2 WHERE a = 1` (column `b` is not in
the schema). -/
def planC4 : Plan :=
  { queryType := .updateQ, table := "users", values := [("b", .int 2)],
    conditions := [("a", .int 1)] }

/-- Fixture: a database with the `users` table and no indexes. -/
def stC6 : DBState :=
  ⟨⟨[("users", schemaA)], [("users", [])], [], none, 0, 1000⟩, []⟩

/-- Fixture: `CREATE INDEX i1 ON users (a) USING HASH`. -/
def planC6 : Plan :=
  { queryType := .createIndexQ, table := "users", indexName := "i1",
    indexColumns := ["a"], indexType := "hash" }

/-- Fixture: three product rows with integer prices. -/
def productsRows : List (String × Row) :=
  [("k1", [("price", .int 100)]), ("k2", [("price", .int 200)]),
   ("k3", [("price", .int 150)])]

/-- Fixture: a database with the `products` table. -/
def stC8 : DBState :=
  ⟨⟨[("products", [("price", "INTEGER")])], [("products", productsRows)],
    [], none, 0, 1000⟩, []⟩

/-- Fixture: `SELECT * FROM products ORDER BY price DESC LIMIT 2`. -/
def planC8 : Plan :=
  { queryType := .selectQ, table := "products", columns := ["*"],
    orderBy := [("price", "DESC")], limit := some 2 }

/-- Fixture: an engine whose table `t` holds one row under key `k`. -/
def stC2b : EngineState :=
  ⟨[("t", [("a", "INTEGER")])], [("t", [("k", rowA)])], [], none, 0, 1000⟩

/-- Fixture: `INSERT INTO users (a) VALUES (1)`. -/
def planInsertU : Plan :=
  { queryType := .insertQ, table := "users", values := rowA }

/-- Fixture: a CREATE TABLE for the already-existing table `users`. -/
def planCreateUsers : Plan :=
  { queryType := .createTableQ, table := "users", schema := schemaA }

/-- The apply-ordering invariant of a `RaftNode`, stable across
`_apply_committed_entries` iterations: the trace of callback invocations
is exactly `0, 1, …, last_applied - 1` in order (each committed entry
applied exactly once, in index order, nothing skipped), every invocation
happened while its entry index was below the commit index, and the
bookkeeping counters are within the log, whose entries carry their own
positions in their `index` fields. -/
def RaftInvCore (st : RaftState) : Prop :=
  st.applied.map Prod.fst = List.range st.lastApplied
  ∧ (∀ p ∈ st.applied, p.1 < p.2)
  ∧ st.lastApplied ≤ st.commitIndex
  ∧ st.commitIndex ≤ st.log.length
  ∧ st.log.map RaftLogEntry.index = List.range st.log.length

/-- Between externally visible steps the apply loop has always caught
up: `last_applied = commit_index`. -/
def RaftInv (st : RaftState) : Prop :=
  RaftInvCore st ∧ st.lastApplied = st.commitIndex

theorem alookup_ainsert_self {κ α : Type} [DecidableEq κ]
    (m : List (κ × α)) (k : κ) (v : α) : alookup (ainsert m k v) k = some v := by
  induction m with
  | nil => simp [ainsert, alookup]
  | cons p rest ih =>
    obtain ⟨k1, v1⟩ := p
    by_cases h : k1 = k
    · simp [ainsert, alookup, h]
    · simp [ainsert, alookup, h, ih]

theorem alookup_aerase_self {κ α : Type} [DecidableEq κ]
    (m : List (κ × α)) (k : κ) : alookup (aerase m k) k = none := by
  induction m with
  | nil => simp [aerase, alookup]
  | cons p rest ih =>
    obtain ⟨k1, v1⟩ := p
    by_cases h : k1 = k
    · simpa [aerase, h] using ih
    · simpa [aerase, alookup, h] using ih

/-- C1.  The claim promises that every row matching all WHERE equality
conditions appears in a SELECT result whichever access path is chosen.
The code violates it: with the hash index on `(a, b)` registered,
`find_best_index` selects it for the partial condition `a = 1` (score 1),
`HashIndex.lookup` derives the probe tuple `(1, None)`, finds no bucket,
and the executor returns no rows even though the stored row `rowAB`
matches the condition.  This theorem evaluates the code at that input:
the row matches and is stored, the index is chosen, yet the result is
empty. -/
theorem select_partial_index_misses_matching_row :
    matchesConds rowAB planC1.conditions = true
    ∧ getRow stC1.storage "users" "k1" = some rowAB
    ∧ findBestIndex stC1.indexes "users" planC1.conditions = some idxAB
    ∧ (execSelect stC1 planC1).rows = some [] := by decide

/-- C2 (counterexample).  The claim states that the WAL append precedes
the in-memory mutation, so a durable-write failure leaves the state
unchanged.  On the concrete engine `stC2`, a `put` whose WAL append
fails returns the durable-write error, yet the state has changed and
already holds the new row: the code mutates first. -/
theorem put_wal_failure_leaves_mutated_state :
    (put false stC2 "t" "k" [("a", .int 7)]).1 = .error "durable-write-failed"
    ∧ (put false stC2 "t" "k" [("a", .int 7)]).2 ≠ stC2
    ∧ getRow (put false stC2 "t" "k" [("a", .int 7)]).2 "t" "k"
        = some [("a", .int 7)] := by decide

/-- C2 (amended).  In every mutating storage operation the in-memory
mutation happens before the WAL append, so when the WAL append fails
with the durable-write error the operation reports the error but the
mutation is left in place: the created schema and empty table, the
dropped maps, the written row, or the removed row, respectively. -/
theorem mutation_precedes_wal_append
    (st : EngineState) (t k : String) (sch : Schema) (row : Row) :
    (amem st.schemas t = false →
      (createTable false st t sch).1 = .error "durable-write-failed"
      ∧ alookup (createTable false st t sch).2.schemas t = some sch
      ∧ alookup (createTable false st t sch).2.tables t = some [])
    ∧ (amem st.schemas t = true → amem st.tables t = true →
      (dropTable false st t).1 = .error "durable-write-failed"
      ∧ alookup (dropTable false st t).2.schemas t = none
      ∧ alookup (dropTable false st t).2.tables t = none)
    ∧ (amem st.schemas t = true →
      (∀ p ∈ row, amem ((alookup st.schemas t).getD []) p.1 = true) →
      (put false st t k row).1 = .error "durable-write-failed"
      ∧ getRow (put false st t k row).2 t k = some row)
    ∧ ((getRow st t k).isSome = true →
      (deleteKey false st t k).1 = .error "durable-write-failed"
      ∧ getRow (deleteKey false st t k).2 t k = none) := by
  refine ⟨?_, ?_, ?_, ?_⟩
  · intro h
    simp [createTable, h, alookup_ainsert_self]
  · intro h1 h2
    simp [dropTable, h1, h2, alookup_aerase_self]
  · intro h1 h2
    have hfind : row.find? (fun p => !amem ((alookup st.schemas t).getD []) p.1) = none := by
      rw [List.find?_eq_none]
      intro p hp
      simp [h2 p hp]
    simp [put, h1, hfind, getRow, alookup_ainsert_self]
  · intro h
    cases htb : alookup st.tables t with
    | none =>
      rw [getRow, htb] at h
      simp [alookup] at h
    | some rows =>
      have hmem : amem rows k = true := by
        rw [getRow, htb] at h
        simpa [amem] using h
      simp [deleteKey, htb, hmem, getRow, alookup_ainsert_self, alookup_aerase_self]

theorem mutation_precedes_wal_append_witness :
    ((createTable false stC2 "u" schemaA).1 = .error "durable-write-failed"
      ∧ alookup (createTable false stC2 "u" schemaA).2.schemas "u" = some schemaA)
    ∧ ((dropTable false stC2 "t").1 = .error "durable-write-failed"
      ∧ alookup (dropTable false stC2 "t").2.schemas "t" = none)
    ∧ ((put false stC2 "t" "k" rowA).1 = .error "durable-write-failed"
      ∧ getRow (put false stC2 "t" "k" rowA).2 "t" "k" = some rowA)
    ∧ ((deleteKey false stC2b "t" "k").1 = .error "durable-write-failed"
      ∧ getRow (deleteKey false stC2b "t" "k").2 "t" "k" = none) := by
  refine ⟨?_, ?_, ?_, ?_⟩
  · have h := (mutation_precedes_wal_append stC2 "u" "" schemaA []).1 (by decide)
    exact ⟨h.1, h.2.1⟩
  · have h := (mutation_precedes_wal_append stC2 "t" "" [] []).2.1 (by decide) (by decide)
    exact ⟨h.1, h.2.1⟩
  · exact (mutation_precedes_wal_append stC2 "t" "k" [] rowA).2.2.1 (by decide) (by decide)
  · exact (mutation_precedes_wal_append stC2b "t" "k" [] []).2.2.2 (by decide)

/-- C3.  The claim (and the spec's crash-idempotence and WAL-completeness
invariants) says re-opening the engine yields tables and schemas maps
equal to those of the direct run.  The code's intent is exactly that, but
WAL replay of a CREATE_TABLE record sets only the schema and never
creates the empty `tables` entry that the live `create_table` creates,
so for the one-operation history `opsC3` the recovered tables map has no
entry for `t` while the direct map has an empty one (a subsequent
`drop_table` on the recovered engine even raises `KeyError`).  This
theorem evaluates both runs at that history. -/
theorem recovery_loses_empty_table :
    alookup stC3.tables "t" = some []
    ∧ alookup stC3.schemas "t" = some [("id", "INTEGER")]
    ∧ alookup (recover stC3).tables "t" = none
    ∧ alookup (recover stC3).schemas "t" = some [("id", "INTEGER")]
    ∧ recover stC3 ≠ (⟨stC3.tables, stC3.schemas⟩ : SnapData) := by decide

/-- C4.  The claim says index-storage consistency survives every executor
operation including an UPDATE that fails partway.  The code violates it:
`_execute_update` removes the matching row from every index before
validating the merged row with `storage.put`; when the SET assigns the
unknown column `b` the put raises, the exception propagates, and the
engine is left with the row still stored but absent from the hash index
on `a` — its lookup under the row's own column values returns the empty
set. -/
theorem update_failure_breaks_index_storage_consistency :
    (execUpdate stC4 planC4).1 = .error "Column b not in schema for table users"
    ∧ getRow (execUpdate stC4 planC4).2.storage "users" "k1" = some rowA
    ∧ alookup ((alookup (execUpdate stC4 planC4).2.indexes "users").getD []) "ia"
        = some (.hashI ⟨["a"], []⟩)
    ∧ ((alookup ((alookup (execUpdate stC4 planC4).2.indexes "users").getD []) "ia").getD
        (.hashI ⟨[], []⟩)).lookupI [("a", .int 1)] = [] := by decide

/-- C5 (counterexample).  The claim says a quoted token is always kept
as a string, so `'123'` yields the string `"123"`.  The source strips
the quotes first and only then applies `_convert_value`, so the token
`'123'` coerces to the integer `123`. -/
theorem quoted_number_coerced_to_int :
    valueToken q123 = .int 123 ∧ valueToken q123 ≠ .str "123" := by decide

theorem strOfToList (s : String) : String.mk s.toList = s := rfl

theorem stripEnds_eq_self {p : Char → Bool} {l : List Char}
    (h1 : ∀ c, l.head? = some c → p c = false)
    (h2 : ∀ c, l.getLast? = some c → p c = false) :
    stripEnds p l = l := by
  cases l with
  | nil => rfl
  | cons c rest =>
    have hc : p c = false := h1 c rfl
    have hdw : (c :: rest).dropWhile p = c :: rest := by
      rw [List.dropWhile_cons, hc]
      simp
    rw [stripEnds, hdw]
    cases hr : (c :: rest).reverse with
    | nil => exact absurd (congrArg List.length hr) (by simp)
    | cons d tr =>
      have hd : p d = false := by
        apply h2
        rw [← List.head?_reverse, hr]
        rfl
      rw [List.dropWhile_cons, hd]
      simp [← hr]

theorem stripEnds_wrap {p : Char → Bool} {c : Char} {l : List Char}
    (hc : p c = true) :
    stripEnds p (c :: (l ++ [c])) = stripEnds p l := by
  rw [stripEnds, stripEnds, List.dropWhile_cons, hc]
  simp only [if_true]
  rw [List.dropWhile_append]
  cases hdl : l.dropWhile p with
  | nil =>
    simp [hc]
  | cons d dr =>
    simp only [List.isEmpty_cons, if_false, Bool.false_eq_true]
    rw [List.reverse_append]
    simp only [List.reverse_cons, List.reverse_nil, List.nil_append, List.singleton_append]
    rw [List.dropWhile_cons, hc]
    simp

theorem valueToken_eq_of_clean {s : String} (h : cleanToken s = true) :
    valueToken s = convertValue s := by
  have hh : ∀ c, s.toList.head? = some c → (isPyWs c || isQuoteCh c) = false := by
    intro c hc
    have := h
    rw [cleanToken] at this
    rcases Bool.and_eq_true_iff.1 this with ⟨ha, _⟩
    rw [hc] at ha
    simpa using ha
  have hl : ∀ c, s.toList.getLast? = some c → (isPyWs c || isQuoteCh c) = false := by
    intro c hc
    have := h
    rw [cleanToken] at this
    rcases Bool.and_eq_true_iff.1 this with ⟨_, hb⟩
    rw [hc] at hb
    simpa using hb
  have hstrip : pyStrip s = s := by
    rw [pyStrip, stripEnds_eq_self, strOfToList]
    · intro c hc
      have := hh c hc
      exact (Bool.or_eq_false_iff.1 this).1
    · intro c hc
      have := hl c hc
      exact (Bool.or_eq_false_iff.1 this).1
  have hquote : stripQuotes s = s := by
    rw [stripQuotes, stripEnds_eq_self, strOfToList]
    · intro c hc
      have := hh c hc
      exact (Bool.or_eq_false_iff.1 this).2
    · intro c hc
      have := hl c hc
      exact (Bool.or_eq_false_iff.1 this).2
  rw [valueToken, hstrip, hquote]

theorem valueToken_wrap_eq_of_clean {s : String} {c : Char}
    (h : cleanToken s = true) (hw : isPyWs c = false) (hq : isQuoteCh c = true) :
    valueToken (wrapIn c s) = convertValue s := by
  have hh : ∀ d, s.toList.head? = some d → (isPyWs d || isQuoteCh d) = false := by
    intro d hd
    rw [cleanToken] at h
    rcases Bool.and_eq_true_iff.1 h with ⟨ha, _⟩
    rw [hd] at ha
    simpa using ha
  have hl : ∀ d, s.toList.getLast? = some d → (isPyWs d || isQuoteCh d) = false := by
    intro d hd
    rw [cleanToken] at h
    rcases Bool.and_eq_true_iff.1 h with ⟨_, hb⟩
    rw [hd] at hb
    simpa using hb
  have htl : (wrapIn c s).toList = c :: (s.toList ++ [c]) := rfl
  have hstrip : pyStrip (wrapIn c s) = wrapIn c s := by
    rw [pyStrip, htl, stripEnds_eq_self]
    · rfl
    · intro d hd
      simp only [List.head?_cons, Option.some.injEq] at hd
      rw [← hd]; exact hw
    · intro d hd
      have : (c :: (s.toList ++ [c])).getLast? = some c := by
        have : c :: (s.toList ++ [c]) = (c :: s.toList) ++ [c] := by simp
        rw [this, List.getLast?_concat]
      rw [this] at hd
      cases hd
      exact hw
  have hquote : stripQuotes (wrapIn c s) = s := by
    rw [stripQuotes, htl, stripEnds_wrap hq, stripEnds_eq_self, strOfToList]
    · intro d hd
      have := hh d hd
      exact (Bool.or_eq_false_iff.1 this).2
    · intro d hd
      have := hl d hd
      exact (Bool.or_eq_false_iff.1 this).2
  rw [valueToken, hstrip, hquote]

/-- C5 (amended).  A quoted token is stripped of its quotes and then
coerced through exactly the same greedy int-else-float-else-string
pipeline as a bareword: for every token with no stray whitespace or
quote at its ends, the bareword, the single-quoted form and the
double-quoted form all parse to `_convert_value` of the bare token (so
`'123'` yields the integer 123, and only tokens failing both numeric
parses stay strings). -/
theorem quoted_tokens_coerced_like_barewords (s : String)
    (h : cleanToken s = true) :
    valueToken s = convertValue s
    ∧ valueToken (wrapIn aposChar s) = convertValue s
    ∧ valueToken (wrapIn '"' s) = convertValue s := by
  refine ⟨valueToken_eq_of_clean h, ?_, ?_⟩
  · exact valueToken_wrap_eq_of_clean h (by decide) (by decide)
  · exact valueToken_wrap_eq_of_clean h (by decide) (by decide)

theorem quoted_tokens_coerced_like_barewords_witness :
    cleanToken "123" = true
    ∧ valueToken (wrapIn aposChar "123") = .int 123
    ∧ valueToken "hello" = .str "hello" := by
  refine ⟨by decide, ?_, ?_⟩
  · have h := (quoted_tokens_coerced_like_barewords "123" (by decide)).2.1
    rw [h]
    decide
  · have h := (quoted_tokens_coerced_like_barewords "hello" (by decide)).1
    rw [h]
    decide

/-- C6 (counterexample).  The claim says every CREATE statement executed
on a non-leader is rejected with `is_leader=false` and mutates nothing.
A `CREATE INDEX` plan is a CREATE statement and a write, yet the gate
only tests INSERT/UPDATE/DELETE/CREATE_TABLE/DROP_TABLE: on a non-leader
it executes locally, returns success (with `is_leader=false` merely
reported), and mutates the index registry. -/
theorem create_index_bypasses_leader_gate :
    (executeQuery stC6 (.ok planC6) false true "fk" "n1").1.status = "success"
    ∧ (executeQuery stC6 (.ok planC6) false true "fk" "n1").1.isLeader = some false
    ∧ (executeQuery stC6 (.ok planC6) false true "fk" "n1").2 ≠ stC6 := by decide

/-- C6 (amended).  The leadership gate covers exactly the five statement
kinds of the source's tuple — INSERT, UPDATE, DELETE, CREATE_TABLE,
DROP_TABLE: on a non-leader those return the not-leader error result
carrying `is_leader=false` and leave the state unchanged, while every
other kind (SELECT, but also CREATE_INDEX and DROP_INDEX) bypasses the
check and behaves exactly as on a leader, except that the reported
`is_leader` field is `false`. -/
theorem leader_gate_covers_exactly_five_kinds
    (st : DBState) (q : Plan) (replOk : Bool) (fk nid : String) :
    (writeGated q.queryType = true →
      executeQuery st (.ok q) false replOk fk nid = (notLeaderRes, st))
    ∧ (writeGated q.queryType = false →
      (executeQuery st (.ok q) false replOk fk nid).2
          = (executeQuery st (.ok q) true true fk nid).2
      ∧ (executeQuery st (.ok q) false replOk fk nid).1
          = { (executeQuery st (.ok q) true true fk nid).1 with
              isLeader := ((executeQuery st (.ok q) true true fk nid).1.isLeader).map
                (fun _ => false) }) := by
  constructor
  · intro h
    simp [executeQuery, h]
  · intro h
    cases hd : execDispatch st q fk with
    | mk res st2 =>
      cases res with
      | error m => simp [executeQuery, h, hd, caughtError]
      | ok r => simp [executeQuery, h, hd, attachNodeFields]

theorem leader_gate_covers_exactly_five_kinds_witness :
    executeQuery stC6 (.ok planInsertU) false true "fk" "n1" = (notLeaderRes, stC6)
    ∧ (executeQuery stC6 (.ok planC6) false true "fk" "n1").2
        = (executeQuery stC6 (.ok planC6) true true "fk" "n1").2 := by
  constructor
  · exact (leader_gate_covers_exactly_five_kinds stC6 planInsertU true "fk" "n1").1
      (by decide)
  · exact ((leader_gate_covers_exactly_five_kinds stC6 planC6 true "fk" "n1").2
      (by decide)).1

/-- C9.  `Node.execute_query` is embedded as a total function — no
exception reaches the caller — and this theorem states the two
catch-clause behaviours: a parse failure (including an unsupported
statement, which the parser raises as an error) is returned as an error
dictionary with the message and the node id and without touching the
state; and an error raised by the executor after the gate has passed is
returned the same way, with whatever state the executor left behind. -/
theorem execute_query_catches_raised_errors
    (st : DBState) (pr : Except String Plan) (isL replOk : Bool) (fk nid : String) :
    (∀ m, pr = .error m →
      executeQuery st pr isL replOk fk nid = (caughtError m nid, st))
    ∧ (∀ q m st2, pr = .ok q →
      (writeGated q.queryType = false ∨ (isL = true ∧ replOk = true)) →
      execDispatch st q fk = (.error m, st2) →
      executeQuery st pr isL replOk fk nid = (caughtError m nid, st2)) := by
  constructor
  · intro m h
    subst h
    rfl
  · intro q m st2 h hpath hd
    subst h
    have hc1 : ¬ (writeGated q.queryType = true ∧ isL = false) := by
      rcases hpath with h | ⟨h1, _⟩
      · simp [h]
      · simp [h1]
    have hc2 : ¬ (writeGated q.queryType = true ∧ replOk = false) := by
      rcases hpath with h | ⟨_, h2⟩
      · simp [h]
      · simp [h2]
    simp [executeQuery, hc1, hc2, hd]

theorem execute_query_catches_raised_errors_witness :
    executeQuery stC6 (.error "parse-fail") true true "fk" "n1"
      = (caughtError "parse-fail" "n1", stC6)
    ∧ executeQuery stC6 (.ok planCreateUsers) true true "fk" "n1"
      = (caughtError "Table users already exists" "n1", stC6) := by
  constructor
  · exact (execute_query_catches_raised_errors stC6 (.error "parse-fail")
      true true "fk" "n1").1 "parse-fail" rfl
  · exact (execute_query_catches_raised_errors stC6 (.ok planCreateUsers)
      true true "fk" "n1").2 planCreateUsers "Table users already exists" stC6
      rfl (Or.inr ⟨rfl, rfl⟩) (by decide)

theorem parseWhereParts_filter_aux (parts : List String) :
    ∀ acc, parts.foldl parseWherePart acc
      = (parts.filter (fun p => (findEqMatch (pyStrip p)).isSome)).foldl parseWherePart acc := by
  induction parts with
  | nil => intro acc; rfl
  | cons p rest ih =>
    intro acc
    cases hm : findEqMatch (pyStrip p) with
    | none =>
      have hstep : parseWherePart acc p = acc := by
        simp [parseWherePart, hm]
      simp only [List.foldl_cons, List.filter_cons, hm, Option.isSome_none,
        Bool.false_eq_true, if_false, hstep]
      exact ih acc
    | some r =>
      simp only [List.foldl_cons, List.filter_cons, hm, Option.isSome_some, if_true]
      exact ih (parseWherePart acc p)

/-- C10.  A WHERE predicate that is not an equality — `age > 30`,
`age != 30`, `price >= 10` — produces no entry in the conditions mapping
and no error: the per-predicate regex finds no match, the fold leaves
the mapping untouched, and the statement therefore executes with only
the remaining equality predicates (the conditions map fully determines
matching).  The first conjunct states this in general: folding all
predicates equals folding only the matching ones; the remaining
conjuncts evaluate the regex on the claim's example shapes and a full
WHERE clause. -/
theorem non_equality_predicates_are_ignored :
    (∀ parts : List String, parseWhereParts parts
        = parseWhereParts (parts.filter (fun p => (findEqMatch (pyStrip p)).isSome)))
    ∧ findEqMatch (pyStrip "age > 30") = none
    ∧ findEqMatch (pyStrip "age != 30") = none
    ∧ findEqMatch (pyStrip "price >= 10") = none
    ∧ parseWhereStr "WHERE age > 30 AND id = 1" = [("id", .int 1)] := by
  refine ⟨?_, by decide, by decide, by decide, by decide⟩
  intro parts
  exact parseWhereParts_filter_aux parts []

theorem log_index_getD {log : List RaftLogEntry}
    (hlog : log.map RaftLogEntry.index = List.range log.length)
    {i : ℕ} (h : i < log.length) :
    (log.getD i ⟨0, 0, ""⟩).index = i := by
  have hm : i < (log.map RaftLogEntry.index).length := by simpa using h
  have h1 : log.getD i ⟨0, 0, ""⟩ = log.get ⟨i, h⟩ := List.getD_eq_get log _ h
  have h2 : (log.map RaftLogEntry.index).get ⟨i, hm⟩ = (log.get ⟨i, h⟩).index := by
    simp
  have h3 : (log.map RaftLogEntry.index).get ⟨i, hm⟩ = i := by
    rw [List.get_of_eq hlog]
    simp
  rw [h1, ← h2, h3]

theorem applyIter_inv : ∀ (n : ℕ) (st : RaftState), RaftInvCore st →
    RaftInvCore (applyIter n st)
    ∧ (applyIter n st).commitIndex = st.commitIndex
    ∧ (applyIter n st).log = st.log
    ∧ (st.commitIndex ≤ st.lastApplied + n →
        (applyIter n st).lastApplied = (applyIter n st).commitIndex) := by
  intro n
  induction n with
  | zero =>
    intro st hinv
    refine ⟨hinv, rfl, rfl, ?_⟩
    intro hle
    have h3 := hinv.2.2.1
    simp only [applyIter]
    omega
  | succ n ih =>
    intro st hinv
    obtain ⟨hmap, hcm, hlc, hcl, hlog⟩ := hinv
    by_cases hguard : st.lastApplied < st.commitIndex
    · have hle : st.lastApplied + 1 ≤ st.log.length := by omega
      have hidx : (st.log.getD (st.lastApplied + 1 - 1) ⟨0, 0, ""⟩).index
          = st.lastApplied := by
        have h0 : st.lastApplied + 1 - 1 = st.lastApplied := by omega
        rw [h0]
        exact log_index_getD hlog (by omega)
      have hred : applyIter (n + 1) st = applyIter n
          { st with lastApplied := st.lastApplied + 1,
                    applied := st.applied ++ [(st.lastApplied, st.commitIndex)] } := by
        simp only [applyIter, hguard, if_true, hle, hidx]
      rw [hred]
      have hinv2 : RaftInvCore
          { st with lastApplied := st.lastApplied + 1,
                    applied := st.applied ++ [(st.lastApplied, st.commitIndex)] } := by
        refine ⟨?_, ?_, by simpa using hguard, by simpa using hcl, by simpa using hlog⟩
        · simp only [List.map_append, hmap, List.map_cons, List.map_nil]
          rw [List.range_succ]
        · intro p hp
          rcases List.mem_append.1 hp with hp1 | hp2
          · exact hcm p hp1
          · simp at hp2
            rw [hp2]
            exact hguard
      have hres := ih _ hinv2
      refine ⟨hres.1, hres.2.1, hres.2.2.1, ?_⟩
      intro hcond
      exact hres.2.2.2 (by simp; omega)
    · have hred : applyIter (n + 1) st = st := by
        simp only [applyIter, hguard, if_false]
      rw [hred]
      exact ⟨⟨hmap, hcm, hlc, hcl, hlog⟩, rfl, rfl, fun _ => by omega⟩

theorem applyCommitted_inv {st : RaftState} (h : RaftInvCore st) :
    RaftInv (applyCommitted st)
    ∧ (applyCommitted st).log = st.log
    ∧ (applyCommitted st).commitIndex = st.commitIndex := by
  have h2 := applyIter_inv (st.commitIndex - st.lastApplied) st h
  have hlc := h.2.2.1
  exact ⟨⟨h2.1, h2.2.2.2 (by omega)⟩, h2.2.2.1, h2.2.1⟩

theorem RaftInv_congr {s t : RaftState} (h : RaftInv s)
    (ha : t.applied = s.applied) (hl : t.lastApplied = s.lastApplied)
    (hc : t.commitIndex = s.commitIndex) (hg : t.log = s.log) : RaftInv t := by
  obtain ⟨⟨h1, h2, h3, h4, h5⟩, h6⟩ := h
  refine ⟨⟨?_, ?_, ?_, ?_, ?_⟩, ?_⟩
  · rw [ha, hl, h1]
  · rw [ha]; exact h2
  · rw [hl, hc]; exact h3
  · rw [hc, hg]; exact h4
  · rw [hg]; exact h5
  · rw [hl, hc]; exact h6

theorem becomeLeader_fields (st : RaftState) :
    (becomeLeader st).applied = st.applied
    ∧ (becomeLeader st).lastApplied = st.lastApplied
    ∧ (becomeLeader st).commitIndex = st.commitIndex
    ∧ (becomeLeader st).log = st.log := by
  rw [becomeLeader]
  have haux : ∀ (l : List String) (acc : RaftState),
      ((l.foldl (fun acc node =>
        if node ≠ st.nodeId then
          { acc with nextIndex := ainsert acc.nextIndex node st.log.length,
                     matchIndex := ainsert acc.matchIndex node 0 }
        else acc) acc).applied = acc.applied
      ∧ (l.foldl (fun acc node =>
        if node ≠ st.nodeId then
          { acc with nextIndex := ainsert acc.nextIndex node st.log.length,
                     matchIndex := ainsert acc.matchIndex node 0 }
        else acc) acc).lastApplied = acc.lastApplied
      ∧ (l.foldl (fun acc node =>
        if node ≠ st.nodeId then
          { acc with nextIndex := ainsert acc.nextIndex node st.log.length,
                     matchIndex := ainsert acc.matchIndex node 0 }
        else acc) acc).commitIndex = acc.commitIndex
      ∧ (l.foldl (fun acc node =>
        if node ≠ st.nodeId then
          { acc with nextIndex := ainsert acc.nextIndex node st.log.length,
                     matchIndex := ainsert acc.matchIndex node 0 }
        else acc) acc).log = acc.log) := by
    intro l
    induction l with
    | nil => intro acc; exact ⟨rfl, rfl, rfl, rfl⟩
    | cons a rest ih =>
      intro acc
      by_cases hne : a ≠ st.nodeId
      · simp only [List.foldl_cons]
        rw [if_pos hne]
        exact ih _
      · simp only [List.foldl_cons]
        rw [if_neg hne]
        exact ih acc
  exact haux st.allNodes _

theorem raftStep_inv {st : RaftState} (h : RaftInv st) (a : RaftAct) :
    RaftInv (raftStep st a) := by
  obtain ⟨⟨hmap, hcm, hlc, hcl, hlog⟩, heq⟩ := h
  have hfull : RaftInv st := ⟨⟨hmap, hcm, hlc, hcl, hlog⟩, heq⟩
  cases a with
  | clientAppend cmd =>
    simp only [raftStep, appendEntryR]
    split
    · exact hfull
    · next hrole =>
      rw [tryCommit]
      split
      · next hcond =>
        apply (applyCommitted_inv ?_).1
        refine ⟨hmap, hcm, ?_, ?_, ?_⟩
        · simp
          omega
        · simp
        · simp only [List.map_append, hlog, List.map_cons, List.map_nil,
            List.length_append, List.length_cons, List.length_nil]
          rw [List.range_succ]
      · next hcond =>
        exfalso
        apply hcond
        refine ⟨not_not.1 hrole, ?_⟩
        simp
        omega
  | rpcAppend lt lc =>
    simp only [raftStep, rpcAppendEntries]
    split
    · next h1 =>
      split
      · next h2 =>
        simp at h2
      · next h2 =>
        split
        · next h3 =>
          apply (applyCommitted_inv ?_).1
          refine ⟨hmap, hcm, ?_, ?_, hlog⟩
          · have h3b : st.commitIndex < lc := h3
            show st.lastApplied ≤ min lc st.log.length
            omega
          · exact min_le_right _ _
        · next h3 =>
          exact RaftInv_congr hfull rfl rfl rfl rfl
    · next h1 =>
      split
      · next h2 =>
        exact hfull
      · next h2 =>
        split
        · next h3 =>
          apply (applyCommitted_inv ?_).1
          refine ⟨hmap, hcm, ?_, ?_, hlog⟩
          · have h3b : st.commitIndex < lc := h3
            show st.lastApplied ≤ min lc st.log.length
            omega
          · exact min_le_right _ _
        · next h3 =>
          exact hfull
  | rpcVote ct cid lli llt =>
    simp only [raftStep, rpcRequestVote]
    repeat' split
    all_goals exact RaftInv_congr hfull rfl rfl rfl rfl
  | timeout =>
    simp only [raftStep, electionTimeoutR]
    split
    · split
      · have hf := becomeLeader_fields
          { st with role := NodeRole.candidate, currentTerm := st.currentTerm + 1,
                    votedFor := some st.nodeId }
        exact RaftInv_congr hfull hf.1 hf.2.1 hf.2.2.1 hf.2.2.2
      · exact RaftInv_congr hfull rfl rfl rfl rfl
    · exact hfull

theorem raftRun_inv (nid : String) (nodes : List String) (acts : List RaftAct) :
    RaftInv (raftRun nid nodes acts) := by
  rw [raftRun]
  have hinit : RaftInv (initRaft nid nodes) := by
    refine ⟨⟨rfl, ?_, ?_, ?_, rfl⟩, rfl⟩ <;> simp [initRaft]
  have haux : ∀ (l : List RaftAct) (s : RaftState), RaftInv s →
      RaftInv (l.foldl raftStep s) := by
    intro l
    induction l with
    | nil => intro s hs; exact hs
    | cons a rest ih =>
      intro s hs
      exact ih _ (raftStep_inv hs a)
  exact haux acts _ hinit

/-- C7.  For every sequence of consensus events from a fresh node, the
apply-callback trace is exactly `0, 1, …, last_applied - 1` in that
order: every committed entry is applied exactly once (the third conjunct
says the loop has applied everything committed), in strictly increasing
index order with no index skipped (the trace is literally the range),
and every invocation happened with the entry's index strictly below the
commit index current at that moment — no entry is applied before it is
committed. -/
theorem raft_applies_in_order_exactly_once
    (nid : String) (nodes : List String) (acts : List RaftAct) :
    (raftRun nid nodes acts).applied.map Prod.fst
        = List.range (raftRun nid nodes acts).lastApplied
    ∧ (raftRun nid nodes acts).applied.all (fun p => p.1 < p.2) = true
    ∧ (raftRun nid nodes acts).lastApplied = (raftRun nid nodes acts).commitIndex
    ∧ (raftRun nid nodes acts).commitIndex ≤ (raftRun nid nodes acts).log.length := by
  obtain ⟨⟨h1, h2, h3, h4, h5⟩, h6⟩ := raftRun_inv nid nodes acts
  refine ⟨h1, ?_, h6, h4⟩
  rw [List.all_eq_true]
  intro p hp
  simpa using h2 p hp

theorem insertLe_perm {α : Type} (le : α → α → Bool) (x : α) (s : List α) :
    List.Perm (insertLe le x s) (x :: s) := by
  induction s with
  | nil => exact List.Perm.refl _
  | cons y ys ih =>
    rw [insertLe]
    by_cases hle : le x y
    · rw [if_pos hle]
    · rw [if_neg hle]
      exact (ih.cons y).trans (List.Perm.swap x y ys)

theorem isortBy_perm {α : Type} (le : α → α → Bool) (l : List α) :
    List.Perm (isortBy le l) l := by
  induction l with
  | nil => exact List.Perm.refl _
  | cons x xs ih =>
    rw [isortBy]
    exact (insertLe_perm le x (isortBy le xs)).trans (ih.cons x)

theorem pairwise_rr_insertLe {α : Type} {le : α → α → Bool} {q : α → α → Prop}
    {x : α} : ∀ {s : List α},
    (∀ a ∈ x :: s, ∀ b ∈ x :: s, ∀ c ∈ x :: s,
      le a b = true → le b c = true → le a c = true) →
    (∀ a ∈ x :: s, ∀ b ∈ x :: s, le a b = true ∨ le b a = true) →
    List.Pairwise (rr le q) s →
    (∀ y ∈ s, q x y) →
    List.Pairwise (rr le q) (insertLe le x s) := by
  intro s
  induction s with
  | nil =>
    intro _ _ _ _
    simp [insertLe, List.pairwise_singleton]
  | cons y ys ih =>
    intro htr hto hp hq
    obtain ⟨hqy, hpys⟩ := List.pairwise_cons.1 hp
    have hsub : ∀ a, a ∈ x :: ys → a ∈ x :: y :: ys := by
      intro a ha
      rcases List.mem_cons.1 ha with rfl | h
      · exact List.mem_cons_self _ _
      · exact List.mem_cons_of_mem _ (List.mem_cons_of_mem _ h)
    rw [insertLe]
    by_cases hle : le x y = true
    · rw [if_pos hle]
      refine List.Pairwise.cons ?_ hp
      intro z hz
      rcases List.mem_cons.1 hz with rfl | hzys
      · exact ⟨hle, fun _ => hq z (List.mem_cons_self _ _)⟩
      · refine ⟨?_, fun _ => hq z (List.mem_cons_of_mem _ hzys)⟩
        exact htr x (List.mem_cons_self _ _) y
          (List.mem_cons_of_mem _ (List.mem_cons_self _ _)) z
          (List.mem_cons_of_mem _ (List.mem_cons_of_mem _ hzys)) hle (hqy z hzys).1
    · rw [if_neg hle]
      have hyx : le y x = true := by
        rcases hto x (List.mem_cons_self _ _) y
          (List.mem_cons_of_mem _ (List.mem_cons_self _ _)) with h | h
        · exact absurd h hle
        · exact h
      refine List.Pairwise.cons ?_ ?_
      · intro z hz
        have hz2 : z ∈ x :: ys := (insertLe_perm le x ys).mem_iff.1 hz
        rcases List.mem_cons.1 hz2 with rfl | hzys
        · exact ⟨hyx, fun hxy => absurd hxy hle⟩
        · exact hqy z hzys
      · apply ih
        · intro a ha b hb c hc
          exact htr a (hsub a ha) b (hsub b hb) c (hsub c hc)
        · intro a ha b hb
          exact hto a (hsub a ha) b (hsub b hb)
        · exact hpys
        · intro z hz
          exact hq z (List.mem_cons_of_mem _ hz)

theorem pairwise_rr_isortBy {α : Type} {le : α → α → Bool} {q : α → α → Prop} :
    ∀ {l : List α},
    (∀ a ∈ l, ∀ b ∈ l, ∀ c ∈ l, le a b = true → le b c = true → le a c = true) →
    (∀ a ∈ l, ∀ b ∈ l, le a b = true ∨ le b a = true) →
    List.Pairwise q l →
    List.Pairwise (rr le q) (isortBy le l) := by
  intro l
  induction l with
  | nil =>
    intro _ _ _
    exact List.Pairwise.nil
  | cons x xs ih =>
    intro htr hto hp
    obtain ⟨hqx, hpxs⟩ := List.pairwise_cons.1 hp
    have hmem : ∀ a, a ∈ x :: isortBy le xs → a ∈ x :: xs := by
      intro a ha
      rcases List.mem_cons.1 ha with rfl | h
      · exact List.mem_cons_self _ _
      · exact List.mem_cons_of_mem _ ((isortBy_perm le xs).mem_iff.1 h)
    have hsubxs : ∀ a, a ∈ xs → a ∈ x :: xs := fun a ha => List.mem_cons_of_mem _ ha
    rw [isortBy]
    apply pairwise_rr_insertLe
    · intro a ha b hb c hc
      exact htr a (hmem a ha) b (hmem b hb) c (hmem c hc)
    · intro a ha b hb
      exact hto a (hmem a ha) b (hmem b hb)
    · apply ih
      · intro a ha b hb c hc
        exact htr a (hsubxs a ha) b (hsubxs b hb) c (hsubxs c hc)
      · intro a ha b hb
        exact hto a (hsubxs a ha) b (hsubxs b hb)
      · exact hpxs
    · intro y hy
      exact hqx y ((isortBy_perm le xs).mem_iff.1 hy)

theorem multiSort_perm (keys : List (String × String)) (l : List Row) :
    List.Perm (multiSort keys l) l := by
  induction keys with
  | nil => exact List.Perm.refl _
  | cons k ks ih =>
    rw [multiSort]
    exact (isortBy_perm (rowLeB k) (multiSort ks l)).trans ih

theorem pairwise_trivial {α : Type} (l : List α) :
    List.Pairwise (fun _ _ => True) l := by
  induction l with
  | nil => exact List.Pairwise.nil
  | cons a t ih => exact List.Pairwise.cons (fun _ _ => trivial) ih

theorem multiSort_pairwise :
    ∀ (keys : List (String × String)) (l : List Row),
    (∀ k ∈ keys, ∀ a ∈ l, ∀ b ∈ l, ∀ c ∈ l,
      rowLeB k a b = true → rowLeB k b c = true → rowLeB k a c = true) →
    (∀ k ∈ keys, ∀ a ∈ l, ∀ b ∈ l, rowLeB k a b = true ∨ rowLeB k b a = true) →
    List.Pairwise (lexLe keys) (multiSort keys l) := by
  intro keys
  induction keys with
  | nil =>
    intro l _ _
    exact pairwise_trivial l
  | cons k ks ih =>
    intro l htr hto
    have hperm := multiSort_perm ks l
    rw [multiSort, lexLe]
    apply pairwise_rr_isortBy
    · intro a ha b hb c hc
      exact htr k (List.mem_cons_self _ _) a (hperm.mem_iff.1 ha)
        b (hperm.mem_iff.1 hb) c (hperm.mem_iff.1 hc)
    · intro a ha b hb
      exact hto k (List.mem_cons_self _ _) a (hperm.mem_iff.1 ha) b (hperm.mem_iff.1 hb)
    · apply ih
      · intro k2 hk2 a ha b hb c hc
        exact htr k2 (List.mem_cons_of_mem _ hk2) a ha b hb c hc
      · intro k2 hk2 a ha b hb
        exact hto k2 (List.mem_cons_of_mem _ hk2) a ha b hb

/-- C8.  For a SELECT with a nonempty ORDER BY whose key values are
comparable on the candidate rows (Python raises `TypeError` otherwise;
the hypotheses state totality and transitivity of each per-key
comparison on those rows), the executor result is the candidate rows
sorted by one stable pass per key iterated in reverse, then cut by
LIMIT, then projected; the sorted list is a permutation of the
candidates ordered by the requested major-to-minor lexicographic
relation `lexLe`; and a non-negative LIMIT n cuts exactly the first n
rows of that ordering. -/
theorem select_order_by_limit_correct (st : DBState) (q : Plan)
    (hord : q.orderBy ≠ [])
    (htr : ∀ k ∈ q.orderBy, ∀ a ∈ selectBase st q, ∀ b ∈ selectBase st q,
      ∀ c ∈ selectBase st q,
      rowLeB k a b = true → rowLeB k b c = true → rowLeB k a c = true)
    (hto : ∀ k ∈ q.orderBy, ∀ a ∈ selectBase st q, ∀ b ∈ selectBase st q,
      rowLeB k a b = true ∨ rowLeB k b a = true) :
    (execSelect st q).status = "success"
    ∧ (execSelect st q).rows = some (projectStep q.columns
        (limitStep q.limit (multiSort q.orderBy (selectBase st q))))
    ∧ (execSelect st q).rowCount = some (projectStep q.columns
        (limitStep q.limit (multiSort q.orderBy (selectBase st q)))).length
    ∧ List.Perm (multiSort q.orderBy (selectBase st q)) (selectBase st q)
    ∧ List.Pairwise (lexLe q.orderBy) (multiSort q.orderBy (selectBase st q))
    ∧ (∀ n : ℤ, q.limit = some n → 0 ≤ n →
        limitStep q.limit (multiSort q.orderBy (selectBase st q))
          = (multiSort q.orderBy (selectBase st q)).take n.toNat) := by
  have hne : q.orderBy.isEmpty = false := by
    rw [List.isEmpty_eq_false]
    exact hord
  refine ⟨rfl, ?_, ?_, multiSort_perm q.orderBy (selectBase st q), ?_, ?_⟩
  · rw [execSelect, hne]
    simp
  · rw [execSelect, hne]
    simp
  · apply multiSort_pairwise
    · intro k hk a ha b hb c hc
      exact htr k hk a ha b hb c hc
    · intro k hk a ha b hb
      exact hto k hk a ha b hb
  · intro n hn hpos
    rw [hn, limitStep, pySlice, if_neg (by omega)]

theorem select_order_by_limit_correct_witness :
    (execSelect stC8 planC8).rows
      = some [[("price", Value.int 200), ("_key", .str "k2")],
              [("price", .int 150), ("_key", .str "k3")]]
    ∧ List.Pairwise (lexLe planC8.orderBy)
        (multiSort planC8.orderBy (selectBase stC8 planC8)) := by
  constructor
  · have h := (select_order_by_limit_correct stC8 planC8 (by decide)
      (by decide) (by decide)).2.1
    rw [h]
    decide
  · exact (select_order_by_limit_correct stC8 planC8 (by decide)
      (by decide) (by decide)).2.2.2.2.1

end DistDB
